/-
Verification of the trajectory engine of the biological_relativity repository.

The Python sources (src/methylome_trajectory.py, src/app.py) are shallowly
embedded below.  Real-valued NumPy arrays become `List ℝ` (or `ℚ` where the
computation is purely rational arithmetic, so that statements are decidable);
`np.mod x (2*π)` becomes `wrap`; `np.random.uniform a b` becomes `unif a b u`
where `u` is the corresponding draw (in `[0,1)`) of the generator stream.
External library routines that the repository merely calls (the NumPy global
generator, `hashlib.md5`, `scipy.interpolate.interp1d`,
`scipy.ndimage.gaussian_filter1d`) are modelled as explicit function
parameters: every theorem below that depends on them quantifies over the
parameter, so it holds for the actual library implementations.
-/
import Mathlib

noncomputable section

/-! ### Basic numeric helpers -/

/-- NumPy modulo: `x % m = x - m * floor (x / m)` (floored modulo on reals). -/
def wrap (m x : ℝ) : ℝ := x - m * (⌊x / m⌋ : ℤ)

/-- `np.random.uniform a b` given the raw generator draw `u ∈ [0,1)`. -/
def unif (a b u : ℝ) : ℝ := a + (b - a) * u

theorem wrap_eq_self {m x : ℝ} (hm : 0 < m) (h0 : 0 ≤ x) (h1 : x < m) :
    wrap m x = x := by
  have hdiv : ⌊x / m⌋ = 0 := by
    rw [Int.floor_eq_zero_iff]
    constructor
    · exact div_nonneg h0 hm.le
    · rwa [div_lt_one hm]
  simp [wrap, hdiv]

theorem two_pi_pos : (0:ℝ) < 2 * Real.pi := by positivity

/-! ### Surface Mapper (`torus_uv_to_xyz`, src/methylome_trajectory.py lines 13-30) -/

/-- `torus_uv_to_xyz(u, v, R, r)`:
`x=(R+r·cos v)·cos u`, `y=(R+r·cos v)·sin u`, `z=r·sin v`. -/
def torus_uv_to_xyz (u v R r : ℝ) : ℝ × ℝ × ℝ :=
  ((R + r * Real.cos v) * Real.cos u,
   (R + r * Real.cos v) * Real.sin u,
   r * Real.sin v)

/-- Default major radius of the torus (`R=3.0`). -/
def torusR : ℝ := 3.0

/-- Default minor radius of the torus (`r=1.15`). -/
def torusr : ℝ := 1.15

/-- The on-surface defect measured by the spec:
`(sqrt(x²+y²) − R)² + z² − r²` should vanish. -/
def torusResidual (R r : ℝ) (p : ℝ × ℝ × ℝ) : ℝ :=
  (Real.sqrt (p.1 ^ 2 + p.2.1 ^ 2) - R) ^ 2 + p.2.2 ^ 2 - r ^ 2

/-- C5, counterexample: the claim quantifies over arbitrary radii `R, r`;
for `R = 1`, `r = 5` (minor radius exceeding major radius) the mapped point at
`(u,v) = (0, π)` does not satisfy the on-surface identity:
`x = -4, y = 0, z = 0`, and `(sqrt 16 - 1)² + 0 = 9 ≠ 25`. -/
theorem torus_surface_counterexample :
    torusResidual 1 5 (torus_uv_to_xyz 0 Real.pi 1 5) ≠ 0 := by
  have hx : torus_uv_to_xyz 0 Real.pi 1 5 = (-4, 0, 0) := by
    simp [torus_uv_to_xyz, Real.cos_pi, Real.sin_pi]
    norm_num
  rw [hx]
  have h16 : Real.sqrt ((-4:ℝ) ^ 2 + (0:ℝ) ^ 2) = 4 := by
    rw [show ((-4:ℝ) ^ 2 + (0:ℝ) ^ 2) = 4 ^ 2 by norm_num]
    exact Real.sqrt_sq (by norm_num)
  simp only [torusResidual, h16]
  norm_num

/-- C5, amended: for radii with `0 ≤ r ≤ R` (in particular the program's
defaults `R = 3.0`, `r = 1.15`), every point produced by `torus_uv_to_xyz`
satisfies `(sqrt(x²+y²) − R)² + z² = r²`, i.e. lies on the torus surface. -/
theorem torus_surface_identity (u v R r : ℝ) (hr : 0 ≤ r) (hrR : r ≤ R) :
    torusResidual R r (torus_uv_to_xyz u v R r) = 0 := by
  have hcos := Real.neg_one_le_cos v
  have hpos : 0 ≤ R + r * Real.cos v := by nlinarith
  have hpyth := Real.sin_sq_add_cos_sq u
  have hxy : ((R + r * Real.cos v) * Real.cos u) ^ 2 +
      ((R + r * Real.cos v) * Real.sin u) ^ 2 = (R + r * Real.cos v) ^ 2 := by
    calc ((R + r * Real.cos v) * Real.cos u) ^ 2 +
          ((R + r * Real.cos v) * Real.sin u) ^ 2
        = (R + r * Real.cos v) ^ 2 * (Real.sin u ^ 2 + Real.cos u ^ 2) := by ring
      _ = (R + r * Real.cos v) ^ 2 := by rw [hpyth, mul_one]
  have hsqrt : Real.sqrt (((R + r * Real.cos v) * Real.cos u) ^ 2 +
      ((R + r * Real.cos v) * Real.sin u) ^ 2) = R + r * Real.cos v := by
    rw [hxy]
    exact Real.sqrt_sq hpos
  simp only [torusResidual, torus_uv_to_xyz, hsqrt]
  have hpythv := Real.sin_sq_add_cos_sq v
  calc (R + r * Real.cos v - R) ^ 2 + (r * Real.sin v) ^ 2 - r ^ 2
      = r ^ 2 * (Real.sin v ^ 2 + Real.cos v ^ 2) - r ^ 2 := by ring
    _ = 0 := by rw [hpythv]; ring

/-- C5, witness for the amended theorem at the program's default radii. -/
theorem torus_surface_identity_witness :
    (0:ℝ) ≤ 1.15 ∧ (1.15:ℝ) ≤ 3 ∧
      torusResidual 3 1.15 (torus_uv_to_xyz 0 0 3 1.15) = 0 :=
  ⟨by norm_num, by norm_num,
    torus_surface_identity 0 0 3 1.15 (by norm_num) (by norm_num)⟩

end

/-! ### Coupling Rule (src/app.py lines 573-596)

The displayed-metric coupling is pure rational arithmetic on the four metric
scalars, so it is embedded over `ℚ` (the float values of the spec's concrete
case are exactly representable). -/

/-- `np.sign`: `1` for positive, `-1` for negative, `0` for zero. -/
def npSign (x : ℚ) : ℚ := if 0 < x then 1 else if x < 0 then -1 else 0

/-- The coupled acceleration delta `da_coupled` computed in src/app.py:
if `dv == 0` keep acceleration stable (`0`); else if the signs of `dv` and
`da_raw` differ, force `sign(dv) * max(|da_raw|, 0.5*|dv|)`; else keep
`da_raw`. -/
def da_coupled (v0 a0 v1 a1_raw : ℚ) : ℚ :=
  let dv := v1 - v0
  let da_raw := a1_raw - a0
  if dv = 0 then 0
  else if npSign dv ≠ npSign da_raw then npSign dv * max |da_raw| (0.5 * |dv|)
  else da_raw

/-- The displayed (coupled) acceleration `a1_coupled = a0 + da_coupled`. -/
def a1_coupled (v0 a0 v1 a1_raw : ℚ) : ℚ := a0 + da_coupled v0 a0 v1 a1_raw

/-- The Coupling Rule exactly as the specification words it (kept separate
from the embedding of the source, to be compared with it): with
`dv = v1−v0`, `da_raw = a1_raw−a0`: if `dv = 0` then `da = 0`; else if
`sign dv ≠ sign da_raw` then `da = sign dv · max(|da_raw|, 0.5·|dv|)`;
else `da = da_raw`; displayed acceleration is `a0 + da`. -/
def couplingRuleSpec (v0 a0 v1 a1_raw : ℚ) : ℚ :=
  if v1 - v0 = 0 then a0 + 0
  else if npSign (v1 - v0) ≠ npSign (a1_raw - a0) then
    a0 + npSign (v1 - v0) * max |a1_raw - a0| (0.5 * |v1 - v0|)
  else a0 + (a1_raw - a0)

/-- C2: the code's displayed acceleration agrees with the specified Coupling
Rule on every input, and on the spec's concrete case
`(v0,a0)=(1.0,0.01)`, `(v1,a1_raw)=(0.8,0.015)` it evaluates to `-0.09`. -/
theorem coupling_rule_correct :
    (∀ v0 a0 v1 a1_raw : ℚ,
      a1_coupled v0 a0 v1 a1_raw = couplingRuleSpec v0 a0 v1 a1_raw) ∧
    a1_coupled 1.0 0.01 0.8 0.015 = -0.09 := by
  constructor
  · intro v0 a0 v1 a1_raw
    simp only [a1_coupled, da_coupled, couplingRuleSpec]
    split
    · rfl
    · split
      · rfl
      · rfl
  · norm_num [a1_coupled, da_coupled, npSign, abs]

/-! ### Intervention Model: slider vector, formatted seed string, seed
(src/methylome_trajectory.py lines 180-236)

Slider magnitudes are decimal UI values; they are embedded as `ℚ`.
`f"{x:.1f}"` formatting is modelled by rounding `10*x` half-to-even to an
integer number of tenths and rendering it with one decimal digit.
`hashlib.md5(...).hexdigest()[:8]` parsed as hex is an external library
function of the string only; it is a parameter `md5h : String → ℕ` of the
seed derivation, and the theorems quantify over it. -/

/-- The six named sliders read by `intervention_path`. -/
structure InterventionVector where
  sleep_change : ℚ
  vo2max_change : ℚ
  alcohol_reduction : ℚ
  caffeine_reduction : ℚ
  nac_dose : ℚ
  metformin_dose : ℚ
deriving DecidableEq

/-- Round a rational to the nearest integer, ties to even
(the rounding used by Python `%.1f` formatting). -/
def roundHalfEven (x : ℚ) : ℤ :=
  let n := ⌊x⌋
  let f := x - n
  if f < 1/2 then n
  else if 1/2 < f then n + 1
  else if n % 2 = 0 then n else n + 1

/-- `f"{q:.1f}"`: the value rounded to tenths, rendered with one decimal. -/
def fmtTenth (q : ℚ) : String :=
  let t := roundHalfEven (10 * q)
  (if t < 0 then "-" else "") ++
    toString (t.natAbs / 10) ++ "." ++ toString (t.natAbs % 10)

/-- The `slider_str` built by `intervention_path`: only the four sliders
`sleep_change`, `vo2max_change`, `alcohol_reduction`, `caffeine_reduction`
are formatted into it — the `nac_dose`/`metformin_dose` parts are commented
out in the source. -/
def slider_str (s : InterventionVector) : String :=
  fmtTenth s.sleep_change ++ "_" ++ fmtTenth s.vo2max_change ++ "_" ++
    fmtTenth s.alcohol_reduction ++ "_" ++ fmtTenth s.caffeine_reduction ++ "_"

/-- `seed = (base_seed + slider_hash) % 2**32` where
`slider_hash = int(md5(slider_str).hexdigest()[:8], 16)` is modelled by the
hash parameter `md5h`. -/
def interventionSeed (md5h : String → ℕ) (base_seed : ℕ)
    (s : InterventionVector) : ℕ :=
  (base_seed + md5h (slider_str s)) % 2 ^ 32

/-- A concrete deterministic stand-in used to instantiate the hash parameter
in closed statements (a 32-bit polynomial string hash).  Only its
determinism — being a function of the string — is ever relied upon, so
every fact proved at `standInHash` also holds verbatim for the real
`hashlib.md5` prefix value. -/
def standInHash (s : String) : ℕ :=
  s.toList.foldl (fun h c => (h * 131 + c.toNat) % 2 ^ 32) 7

/-- The zero `InterventionVector` (the neutral slider setting). -/
def ivZero : InterventionVector :=
  ⟨0, 0, 0, 0, 0, 0⟩

/-- `intervention_score`: the fixed positive linear combination of the six
slider magnitudes (src/methylome_trajectory.py lines 220-227). -/
def intervention_score (s : InterventionVector) : ℚ :=
  s.sleep_change * 0.08 + s.vo2max_change * 0.006 +
    s.alcohol_reduction * 0.004 + s.caffeine_reduction * 0.0003 +
    s.nac_dose * 0.0002 + s.metformin_dose * 0.0002

/-- `step_factor = np.clip(1.0 - intervention_score * 0.6, 0.3, 1.0)`. -/
def step_factor (s : InterventionVector) : ℚ :=
  min (max (1.0 - intervention_score s * 0.6) 0.3) 1.0

/-- `curvature_factor = 1.0 + (caffeine_reduction / 400.0) * 0.3`
(the nac/metformin term is commented out in the source). -/
def curvature_factor (s : InterventionVector) : ℚ :=
  1.0 + (s.caffeine_reduction / 400.0) * 0.3

noncomputable section

/-! ### Path Sampler (src/methylome_trajectory.py lines 130-321)

The seeded NumPy global generator is modelled by a stream parameter
`rngOf : seed → draw index → ℝ` handing out the raw `[0,1)` draws in
consumption order; `np.random.uniform(a, b)` on the `i`-th draw is
`unif a b (rngOf seed i)`.  `scipy.interpolate.CubicSpline` with
`bc_type='natural'` on the uniform knot grid is embedded concretely: the
natural-spline moment system is solved by the Thomas algorithm and the
piecewise cubic is evaluated in moment form. -/

/-- `np.linspace(0, 1, m)`. -/
def linspace01 (m : ℕ) : List ℝ :=
  (List.range m).map (fun k => (k : ℝ) / ((m : ℝ) - 1))

/-- Second differences `y_{k-1} - 2·y_k + y_{k+1}` at the interior knots. -/
def secondDiffs (ys : List ℝ) : List ℝ :=
  List.zipWith3 (fun a b c => a - 2 * b + c) ys ys.tail ys.tail.tail

/-- Forward sweep of the tridiagonal (Thomas) solve of the moment system
`M_{k-1} + 4·M_k + M_{k+1} = rhs_k`: transformed super-diagonal/rhs pairs. -/
def thomasSweep (prev : ℝ × ℝ) : List ℝ → List (ℝ × ℝ)
  | [] => []
  | d :: rest =>
    let denom := 4 - prev.1
    let cur := (1 / denom, (d - prev.2) / denom)
    cur :: thomasSweep cur rest

/-- Back substitution of the Thomas solve. -/
def thomasBack (l : List (ℝ × ℝ)) : List ℝ :=
  l.reverse.foldl (fun acc cd => (cd.2 - cd.1 * acc.headD 0) :: acc) []

/-- Moments (second derivatives at the knots) of the natural cubic spline
through `ys` on the uniform grid `linspace(0,1,n)`: zero at both ends,
interior values solving `M_{k-1} + 4·M_k + M_{k+1} = 6·δ²y_k / h²`. -/
def naturalMoments (ys : List ℝ) : List ℝ :=
  let n := ys.length
  let h : ℝ := 1 / ((n : ℝ) - 1)
  let rhs := (secondDiffs ys).map (fun d => 6 * d / (h * h))
  (0 : ℝ) :: (thomasBack (thomasSweep (0, 0) rhs) ++ [0])

/-- Evaluate the natural cubic spline through `ys` (knots `linspace(0,1,n)`)
at `t`: locate the segment, then use the standard moment form of the
piecewise cubic. -/
def splineEval (ys : List ℝ) (t : ℝ) : ℝ :=
  let n := ys.length
  let h : ℝ := 1 / ((n : ℝ) - 1)
  let ms := naturalMoments ys
  let k : ℕ := min (Int.toNat ⌊t * ((n : ℝ) - 1)⌋) (n - 2)
  let tk : ℝ := (k : ℝ) * h
  let tk1 : ℝ := ((k : ℝ) + 1) * h
  let yk := ys.getD k 0
  let yk1 := ys.getD (k + 1) 0
  let mk := ms.getD k 0
  let mk1 := ms.getD (k + 1) 0
  mk * (tk1 - t) ^ 3 / (6 * h) + mk1 * (t - tk) ^ 3 / (6 * h) +
    (yk - mk * h ^ 2 / 6) * ((tk1 - t) / h) +
    (yk1 - mk1 * h ^ 2 / 6) * ((t - tk) / h)

/-- The spline interpolates its first control value at `t = 0` (for any
moment values, in particular the natural ones). -/
theorem splineEval_zero (ys : List ℝ) (h2 : 2 ≤ ys.length) :
    splineEval ys 0 = ys.getD 0 0 := by
  have hcast : (2 : ℝ) ≤ (ys.length : ℝ) := by exact_mod_cast h2
  have hne : ((ys.length : ℝ) - 1) ≠ 0 := by linarith
  simp only [splineEval, zero_mul, Int.floor_zero, Int.toNat_zero,
    Nat.zero_min, Nat.cast_zero]
  field_simp
  ring

/-- One step of the control-point random walk: add the drawn step to the
previous point and wrap both coordinates modulo `2π`. -/
def walkPts (step : ℕ → ℝ × ℝ) (start : ℝ × ℝ) : ℕ → ℝ × ℝ
  | 0 => start
  | k + 1 =>
    let p := walkPts step start k
    let d := step k
    (wrap (2 * Real.pi) (p.1 + d.1), wrap (2 * Real.pi) (p.2 + d.2))

/-- The list of the walk's first `n` control points. -/
def controlPoints (step : ℕ → ℝ × ℝ) (start : ℝ × ℝ) (n : ℕ) :
    List (ℝ × ℝ) :=
  (List.range n).map (walkPts step start)

/-- Status-quo drift step (lines 151-156): `du ~ U(0.15, 0.30)`,
`dv ~ U(0.10, 0.25)`, consuming draws `2k` and `2k+1`. -/
def sqStep (s : ℕ → ℝ) (k : ℕ) : ℝ × ℝ :=
  (unif 0.15 0.30 (s (2 * k)), unif 0.10 0.25 (s (2 * k + 1)))

/-- Healthy-population step (lines 295-300): `du ~ U(0.08, 0.15)`,
`dv ~ U(0.05, 0.12)`. -/
def hpStep (s : ℕ → ℝ) (k : ℕ) : ℝ × ℝ :=
  (unif 0.08 0.15 (s (2 * k)), unif 0.05 0.12 (s (2 * k + 1)))

/-- `base_step_u = 0.22` (line 230). -/
def base_step_u : ℝ := 0.22

/-- `base_step_v = 0.18` (line 231). -/
def base_step_v : ℝ := 0.18

/-- Intervention step (lines 238-248): `du ~ U(0.05, base_step_u)·sf`,
`dv ~ U(0.03, base_step_v)·sf`, rotated by `angle ~ U(0, 2π)·cf`,
consuming draws `3k`, `3k+1`, `3k+2`. -/
def ivStep (s : ℕ → ℝ) (sf cf : ℝ) (k : ℕ) : ℝ × ℝ :=
  let du := unif 0.05 base_step_u (s (3 * k)) * sf
  let dv := unif 0.03 base_step_v (s (3 * k + 1)) * sf
  let angle := unif 0 (2 * Real.pi) (s (3 * k + 2)) * cf
  (du * Real.cos angle - dv * Real.sin angle,
   du * Real.sin angle + dv * Real.cos angle)

/-- A dense path as returned by the generators: parameter arrays, the
corresponding 3D coordinate arrays, and the point count. -/
structure Path3 where
  u : List ℝ
  v : List ℝ
  x : List ℝ
  y : List ℝ
  z : List ℝ
  num_points : ℕ

/-- `num_control = max(5, months + 2)`. -/
def num_control (months : ℕ) : ℕ := max 5 (months + 2)

/-- `num_samples = 30 + 10 * months`. -/
def num_samples (months : ℕ) : ℕ := 30 + 10 * months

/-- The spline-densify-project tail shared by the three generators: fit
natural cubic splines through the control coordinates, evaluate on
`linspace(0,1,m)`, wrap modulo `2π`, and map through the Surface Mapper at
the default radii. -/
def mkPath (uc vc : List ℝ) (m : ℕ) : Path3 :=
  let uArr := (linspace01 m).map (fun t => wrap (2 * Real.pi) (splineEval uc t))
  let vArr := (linspace01 m).map (fun t => wrap (2 * Real.pi) (splineEval vc t))
  let pts := (uArr.zip vArr).map (fun p => torus_uv_to_xyz p.1 p.2 torusR torusr)
  { u := uArr, v := vArr,
    x := pts.map (fun q => q.1),
    y := pts.map (fun q => q.2.1),
    z := pts.map (fun q => q.2.2),
    num_points := m }

/-- `status_quo_path(start_uv, months, seed)` (lines 130-177). -/
def status_quo_path (rngOf : ℕ → ℕ → ℝ) (start_uv : ℝ × ℝ)
    (months seed : ℕ) : Path3 :=
  let s := rngOf seed
  let ctrl := controlPoints (sqStep s) start_uv (num_control months)
  mkPath (ctrl.map Prod.fst) (ctrl.map Prod.snd) (num_samples months)

/-- `intervention_path(start_uv, months, sliders, base_seed)`
(lines 180-271): derive the seed from the slider string, then run the
factor-scaled rotated walk. -/
def intervention_path (md5h : String → ℕ) (rngOf : ℕ → ℕ → ℝ)
    (start_uv : ℝ × ℝ) (months : ℕ) (sliders : InterventionVector)
    (base_seed : ℕ) : Path3 :=
  let seed := interventionSeed md5h base_seed sliders
  let s := rngOf seed
  let ctrl := controlPoints
    (ivStep s ((step_factor sliders : ℚ) : ℝ) ((curvature_factor sliders : ℚ) : ℝ))
    start_uv (num_control months)
  mkPath (ctrl.map Prod.fst) (ctrl.map Prod.snd) (num_samples months)

/-- `healthy_population_path(start_uv, months, seed)` (lines 274-321). -/
def healthy_population_path (rngOf : ℕ → ℕ → ℝ) (start_uv : ℝ × ℝ)
    (months seed : ℕ) : Path3 :=
  let s := rngOf seed
  let ctrl := controlPoints (hpStep s) start_uv (num_control months)
  mkPath (ctrl.map Prod.fst) (ctrl.map Prod.snd) (num_samples months)

theorem controlPoints_length (step : ℕ → ℝ × ℝ) (start : ℝ × ℝ) (n : ℕ) :
    (controlPoints step start n).length = n := by
  simp [controlPoints]

theorem controlPoints_fst_getD (step : ℕ → ℝ × ℝ) (start : ℝ × ℝ) {n : ℕ}
    (hn : 0 < n) :
    ((controlPoints step start n).map Prod.fst).getD 0 0 = start.1 := by
  obtain ⟨m, rfl⟩ := Nat.exists_eq_succ_of_ne_zero hn.ne'
  simp [controlPoints, List.range_succ_eq_map, walkPts]

theorem controlPoints_snd_getD (step : ℕ → ℝ × ℝ) (start : ℝ × ℝ) {n : ℕ}
    (hn : 0 < n) :
    ((controlPoints step start n).map Prod.snd).getD 0 0 = start.2 := by
  obtain ⟨m, rfl⟩ := Nat.exists_eq_succ_of_ne_zero hn.ne'
  simp [controlPoints, List.range_succ_eq_map, walkPts]

theorem mkPath_u_head (uc vc : List ℝ) {m : ℕ} (hm : 0 < m)
    (h2 : 2 ≤ uc.length) :
    (mkPath uc vc m).u.head? = some (wrap (2 * Real.pi) (uc.getD 0 0)) := by
  obtain ⟨m', rfl⟩ := Nat.exists_eq_succ_of_ne_zero hm.ne'
  simp [mkPath, linspace01, List.range_succ_eq_map, splineEval_zero uc h2]

theorem mkPath_v_head (uc vc : List ℝ) {m : ℕ} (hm : 0 < m)
    (h2 : 2 ≤ vc.length) :
    (mkPath uc vc m).v.head? = some (wrap (2 * Real.pi) (vc.getD 0 0)) := by
  obtain ⟨m', rfl⟩ := Nat.exists_eq_succ_of_ne_zero hm.ne'
  simp [mkPath, linspace01, List.range_succ_eq_map, splineEval_zero vc h2]

end

/-! ### C9: every generated dense path begins at its starting point -/

theorem path_head_aux (step : ℕ → ℝ × ℝ) (start : ℝ × ℝ) (months : ℕ)
    (hu0 : 0 ≤ start.1) (hu1 : start.1 < 2 * Real.pi)
    (hv0 : 0 ≤ start.2) (hv1 : start.2 < 2 * Real.pi) :
    (mkPath ((controlPoints step start (num_control months)).map Prod.fst)
        ((controlPoints step start (num_control months)).map Prod.snd)
        (num_samples months)).u.head? = some start.1 ∧
    (mkPath ((controlPoints step start (num_control months)).map Prod.fst)
        ((controlPoints step start (num_control months)).map Prod.snd)
        (num_samples months)).v.head? = some start.2 := by
  have hm : 0 < num_samples months := by simp [num_samples]
  have hn : 0 < num_control months := by
    have : 5 ≤ num_control months := le_max_left _ _
    omega
  have h2u : 2 ≤ ((controlPoints step start (num_control months)).map
      Prod.fst).length := by
    have : 5 ≤ num_control months := le_max_left _ _
    simp only [List.length_map, controlPoints_length]
    omega
  have h2v : 2 ≤ ((controlPoints step start (num_control months)).map
      Prod.snd).length := by
    have : 5 ≤ num_control months := le_max_left _ _
    simp only [List.length_map, controlPoints_length]
    omega
  constructor
  · rw [mkPath_u_head _ _ hm h2u, controlPoints_fst_getD _ _ hn,
      wrap_eq_self two_pi_pos hu0 hu1]
  · rw [mkPath_v_head _ _ hm h2v, controlPoints_snd_getD _ _ hn,
      wrap_eq_self two_pi_pos hv0 hv1]

/-- C9: for every starting point with coordinates in `[0, 2π)` and every
`months`, the dense `u`/`v` arrays returned by `status_quo_path`,
`intervention_path` and `healthy_population_path` begin exactly at the
starting point: the first sample parameter is `t = 0`, the natural cubic
spline interpolates its first control point there, and the modulo-`2π` wrap
is the identity on `[0, 2π)`. -/
theorem paths_begin_at_start (md5h : String → ℕ) (rngOf : ℕ → ℕ → ℝ)
    (start : ℝ × ℝ) (months sqSeed hpSeed base_seed : ℕ)
    (sliders : InterventionVector)
    (hu0 : 0 ≤ start.1) (hu1 : start.1 < 2 * Real.pi)
    (hv0 : 0 ≤ start.2) (hv1 : start.2 < 2 * Real.pi) :
    (status_quo_path rngOf start months sqSeed).u.head? = some start.1 ∧
    (status_quo_path rngOf start months sqSeed).v.head? = some start.2 ∧
    (intervention_path md5h rngOf start months sliders base_seed).u.head? =
      some start.1 ∧
    (intervention_path md5h rngOf start months sliders base_seed).v.head? =
      some start.2 ∧
    (healthy_population_path rngOf start months hpSeed).u.head? =
      some start.1 ∧
    (healthy_population_path rngOf start months hpSeed).v.head? =
      some start.2 := by
  refine ⟨?_, ?_, ?_, ?_, ?_, ?_⟩
  · exact (path_head_aux (sqStep (rngOf sqSeed)) start months
      hu0 hu1 hv0 hv1).1
  · exact (path_head_aux (sqStep (rngOf sqSeed)) start months
      hu0 hu1 hv0 hv1).2
  · exact (path_head_aux
      (ivStep (rngOf (interventionSeed md5h base_seed sliders))
        ((step_factor sliders : ℚ) : ℝ) ((curvature_factor sliders : ℚ) : ℝ))
      start months hu0 hu1 hv0 hv1).1
  · exact (path_head_aux
      (ivStep (rngOf (interventionSeed md5h base_seed sliders))
        ((step_factor sliders : ℚ) : ℝ) ((curvature_factor sliders : ℚ) : ℝ))
      start months hu0 hu1 hv0 hv1).2
  · exact (path_head_aux (hpStep (rngOf hpSeed)) start months
      hu0 hu1 hv0 hv1).1
  · exact (path_head_aux (hpStep (rngOf hpSeed)) start months
      hu0 hu1 hv0 hv1).2

/-- C9, witness at a concrete starting point `(1,1)`, `months = 0`, the
repository's default seeds, zero sliders, and a constant generator stream. -/
theorem paths_begin_at_start_witness :
    ((0:ℝ) ≤ 1 ∧ (1:ℝ) < 2 * Real.pi) ∧
    ((status_quo_path (fun _ _ => 0) (1, 1) 0 43).u.head? = some 1 ∧
     (status_quo_path (fun _ _ => 0) (1, 1) 0 43).v.head? = some 1 ∧
     (intervention_path standInHash (fun _ _ => 0) (1, 1) 0 ivZero 44).u.head? =
       some 1 ∧
     (intervention_path standInHash (fun _ _ => 0) (1, 1) 0 ivZero 44).v.head? =
       some 1 ∧
     (healthy_population_path (fun _ _ => 0) (1, 1) 0 100).u.head? = some 1 ∧
     (healthy_population_path (fun _ _ => 0) (1, 1) 0 100).v.head? = some 1) :=
  ⟨⟨by norm_num, by nlinarith [Real.pi_gt_three]⟩,
    paths_begin_at_start standInHash (fun _ _ => 0) (1, 1) 0 43 100 44 ivZero
      (by norm_num) (by show (1:ℝ) < 2 * Real.pi; nlinarith [Real.pi_gt_three])
      (by norm_num) (by show (1:ℝ) < 2 * Real.pi; nlinarith [Real.pi_gt_three])⟩

/-! ### C1: seed derivation determinism and slider sensitivity -/

/-- C1, counterexample: two `InterventionVector`s that differ in exactly one
slider (`nac_dose`: `100` vs `0`) produce the very same `slider_str` — the
`nac_dose`/`metformin_dose` parts of the string are commented out in the
source — hence the very same derived seed (shown at a concrete hash
instance; the string equality makes this independent of the hash used). -/
theorem seed_slider_counterexample :
    ({ ivZero with nac_dose := 100 } : InterventionVector).nac_dose ≠
      ivZero.nac_dose ∧
    ({ ivZero with nac_dose := 100 } : InterventionVector).sleep_change =
      ivZero.sleep_change ∧
    ({ ivZero with nac_dose := 100 } : InterventionVector).vo2max_change =
      ivZero.vo2max_change ∧
    ({ ivZero with nac_dose := 100 } : InterventionVector).alcohol_reduction =
      ivZero.alcohol_reduction ∧
    ({ ivZero with nac_dose := 100 } : InterventionVector).caffeine_reduction =
      ivZero.caffeine_reduction ∧
    ({ ivZero with nac_dose := 100 } : InterventionVector).metformin_dose =
      ivZero.metformin_dose ∧
    slider_str { ivZero with nac_dose := 100 } = slider_str ivZero ∧
    interventionSeed standInHash 44 { ivZero with nac_dose := 100 } =
      interventionSeed standInHash 44 ivZero := by
  refine ⟨by norm_num [ivZero], rfl, rfl, rfl, rfl, rfl, rfl, rfl⟩

/-- C1, amended: seed derivation and path generation are deterministic —
two vectors with all six slider values equal derive the identical seed and
the identical `Path` (for every hash function and generator) — and the seed
is a function of the formatted four-slider string alone: whenever two
vectors produce the same `slider_str` (in particular whenever they differ
only in `nac_dose` or `metformin_dose`, which never enter the string), the
derived 32-bit seed is identical.  A single changed slider value therefore
changes the seed only if it changes the formatted string. -/
theorem seed_path_determinism (md5h : String → ℕ) (rngOf : ℕ → ℕ → ℝ)
    (start : ℝ × ℝ) (months base_seed : ℕ) (s1 s2 : InterventionVector) :
    (s1.sleep_change = s2.sleep_change → s1.vo2max_change = s2.vo2max_change →
      s1.alcohol_reduction = s2.alcohol_reduction →
      s1.caffeine_reduction = s2.caffeine_reduction →
      s1.nac_dose = s2.nac_dose → s1.metformin_dose = s2.metformin_dose →
      interventionSeed md5h base_seed s1 = interventionSeed md5h base_seed s2 ∧
      intervention_path md5h rngOf start months s1 base_seed =
        intervention_path md5h rngOf start months s2 base_seed) ∧
    (slider_str s1 = slider_str s2 →
      interventionSeed md5h base_seed s1 = interventionSeed md5h base_seed s2) := by
  constructor
  · intro h1 h2 h3 h4 h5 h6
    obtain ⟨a1, b1, c1, d1, e1, f1⟩ := s1
    obtain ⟨a2, b2, c2, d2, e2, f2⟩ := s2
    simp only at h1 h2 h3 h4 h5 h6
    subst h1; subst h2; subst h3; subst h4; subst h5; subst h6
    exact ⟨rfl, rfl⟩
  · intro hs
    simp only [interventionSeed, hs]

/-- C1, witness for the amended theorem: both parts applied at the zero
vector against itself, with the concrete stand-in hash and a constant
stream. -/
theorem seed_path_determinism_witness :
    (ivZero.sleep_change = ivZero.sleep_change ∧
      slider_str ivZero = slider_str ivZero) ∧
    (interventionSeed standInHash 44 ivZero =
        interventionSeed standInHash 44 ivZero ∧
      intervention_path standInHash (fun _ _ => 0) (1, 1) 12 ivZero 44 =
        intervention_path standInHash (fun _ _ => 0) (1, 1) 12 ivZero 44) ∧
    interventionSeed standInHash 44 ivZero =
      interventionSeed standInHash 44 ivZero :=
  ⟨⟨rfl, rfl⟩,
    (seed_path_determinism standInHash (fun _ _ => 0) (1, 1) 12 44
      ivZero ivZero).1 rfl rfl rfl rfl rfl rfl,
    (seed_path_determinism standInHash (fun _ _ => 0) (1, 1) 12 44
      ivZero ivZero).2 rfl⟩

/-! ### C3: the zero InterventionVector -/

/-- C3, counterexample: with all sliders zero the intervention walk does NOT
reproduce the status-quo walk's step ranges: with the same start `(0,0)` and
the same (constant-zero) generator stream, the first intervention control
step is `(0.05, 0.03)` (the unscaled base ranges' lower bounds, unrotated
since the drawn angle is `0`) while the status-quo step is `(0.15, 0.10)` —
the second control points differ. -/
theorem zero_vector_counterexample :
    walkPts (ivStep (fun _ => 0) ((step_factor ivZero : ℚ) : ℝ)
        ((curvature_factor ivZero : ℚ) : ℝ)) (0, 0) 1 ≠
      walkPts (sqStep (fun _ => 0)) (0, 0) 1 := by
  have hsf : ((step_factor ivZero : ℚ) : ℝ) = 1 := by
    norm_num [step_factor, intervention_score, ivZero]
  have hcf : ((curvature_factor ivZero : ℚ) : ℝ) = 1 := by
    norm_num [curvature_factor, ivZero]
  intro h
  have h1 := congrArg Prod.fst h
  simp only [walkPts, ivStep, sqStep, unif, hsf, hcf] at h1
  norm_num [Real.cos_zero, Real.sin_zero] at h1
  rw [wrap_eq_self two_pi_pos (by norm_num)
        (by nlinarith [Real.pi_gt_three]),
      wrap_eq_self two_pi_pos (by norm_num)
        (by nlinarith [Real.pi_gt_three])] at h1
  norm_num at h1

/-- C3, amended: the zero `InterventionVector` gives
`interventionScore = 0`, `stepFactor = 1.0`, and `curvatureFactor` equal to
its baseline value `1.0`, so its control-point walk draws steps from the
UNSCALED intervention base ranges `U(0.05,0.22) × U(0.03,0.18)` with a
full-range random rotation of each step — these differ from the status-quo
ranges `U(0.15,0.30) × U(0.10,0.25)`, so the status-quo walk is not
reproduced (the walks diverge already at the second control point for a
constant-zero stream). -/
theorem zero_vector_neutral :
    intervention_score ivZero = 0 ∧
    step_factor ivZero = 1 ∧
    curvature_factor ivZero = 1 ∧
    (∀ (s : ℕ → ℝ) (k : ℕ),
      ivStep s ((step_factor ivZero : ℚ) : ℝ)
          ((curvature_factor ivZero : ℚ) : ℝ) k = ivStep s 1 1 k) ∧
    walkPts (ivStep (fun _ => 0) 1 1) (0, 0) 1 ≠
      walkPts (sqStep (fun _ => 0)) (0, 0) 1 := by
  have hsf : ((step_factor ivZero : ℚ) : ℝ) = 1 := by
    norm_num [step_factor, intervention_score, ivZero]
  have hcf : ((curvature_factor ivZero : ℚ) : ℝ) = 1 := by
    norm_num [curvature_factor, ivZero]
  refine ⟨by norm_num [intervention_score, ivZero],
    by norm_num [step_factor, intervention_score, ivZero],
    by norm_num [curvature_factor, ivZero],
    fun s k => by rw [hsf, hcf], ?_⟩
  intro h
  have h1 := congrArg Prod.fst h
  simp only [walkPts, ivStep, sqStep, unif] at h1
  norm_num [Real.cos_zero, Real.sin_zero] at h1
  rw [wrap_eq_self two_pi_pos (by norm_num)
        (by nlinarith [Real.pi_gt_three]),
      wrap_eq_self two_pi_pos (by norm_num)
        (by nlinarith [Real.pi_gt_three])] at h1
  norm_num at h1

noncomputable section

/-! ### Healthy-population band (`healthy_population_band`, lines 324-352)
and Blend Operator (`blend_toward_healthy`, lines 355-407) -/

/-- The three 3D coordinate arrays of one band path (the returned band
dictionaries carry only `x`, `y`, `z`). -/
structure XYZArrays where
  x : List ℝ
  y : List ℝ
  z : List ℝ

/-- Map parameter arrays through the Surface Mapper at the default radii
(the vectorized `torus_uv_to_xyz(u_arr, v_arr)` call). -/
def toXYZ (us vs : List ℝ) : XYZArrays :=
  let pts := (us.zip vs).map (fun p => torus_uv_to_xyz p.1 p.2 torusR torusr)
  { x := pts.map (fun q => q.1),
    y := pts.map (fun q => q.2.1),
    z := pts.map (fun q => q.2.2) }

/-- The upper/lower error band around the healthy path. -/
structure Band where
  upper : XYZArrays
  lower : XYZArrays

/-- `healthy_population_band(healthy_path, band_width)`: offset only the
`v` (minor-angle) coordinate by `±band_width`, wrap modulo `2π`, and map to
3D. -/
def healthy_population_band (healthy_path : Path3) (band_width : ℝ) : Band :=
  let u_arr := healthy_path.u
  let v_arr := healthy_path.v
  let u_upper := u_arr
  let v_upper := v_arr.map (fun t => wrap (2 * Real.pi) (t + band_width))
  let u_lower := u_arr
  let v_lower := v_arr.map (fun t => wrap (2 * Real.pi) (t - band_width))
  { upper := toXYZ u_upper v_upper, lower := toXYZ u_lower v_lower }

/-- `blend_toward_healthy(intervention_path, healthy_path, alpha)`: when the
two parameter arrays differ in length, resample `pathB`'s arrays onto
`pathA`'s normalized grid (the `scipy.interpolate.interp1d(kind='cubic')`
call, modelled by the parameter `resample : array → target length → array`);
blend `(1-alpha)·A + alpha·B` component-wise, wrap modulo `2π`, project. -/
def blend_toward_healthy (resample : List ℝ → ℕ → List ℝ)
    (pathA pathB : Path3) (alpha : ℝ) : Path3 :=
  let u_interv := pathA.u
  let v_interv := pathA.v
  let u_healthy := pathB.u
  let v_healthy := pathB.v
  let u_healthy_matched :=
    if u_interv.length ≠ u_healthy.length then resample u_healthy u_interv.length
    else u_healthy
  let v_healthy_matched :=
    if u_interv.length ≠ u_healthy.length then resample v_healthy u_interv.length
    else v_healthy
  let u_blended := (List.zipWith (fun a b => (1 - alpha) * a + alpha * b)
    u_interv u_healthy_matched).map (wrap (2 * Real.pi))
  let v_blended := (List.zipWith (fun a b => (1 - alpha) * a + alpha * b)
    v_interv v_healthy_matched).map (wrap (2 * Real.pi))
  let pts := (u_blended.zip v_blended).map
    (fun p => torus_uv_to_xyz p.1 p.2 torusR torusr)
  { u := u_blended, v := v_blended,
    x := pts.map (fun q => q.1),
    y := pts.map (fun q => q.2.1),
    z := pts.map (fun q => q.2.2),
    num_points := u_blended.length }

theorem zipWith_blend_zero (l1 l2 : List ℝ) (h : l1.length = l2.length) :
    List.zipWith (fun a b => (1 - (0:ℝ)) * a + 0 * b) l1 l2 = l1 := by
  induction l1 generalizing l2 with
  | nil => simp
  | cons a t ih =>
    cases l2 with
    | nil => simp at h
    | cons b t2 =>
      simp only [List.zipWith_cons_cons]
      refine congrArg₂ _ (by ring) (ih t2 (by simpa using h))

theorem zipWith_blend_one (l1 l2 : List ℝ) (h : l1.length = l2.length) :
    List.zipWith (fun a b => (1 - (1:ℝ)) * a + 1 * b) l1 l2 = l2 := by
  induction l1 generalizing l2 with
  | nil => cases l2 with
    | nil => simp
    | cons b t2 => simp at h
  | cons a t ih =>
    cases l2 with
    | nil => simp at h
    | cons b t2 =>
      simp only [List.zipWith_cons_cons]
      refine congrArg₂ _ (by ring) (ih t2 (by simpa using h))

theorem map_wrap_eq_self (l : List ℝ)
    (h : ∀ a ∈ l, 0 ≤ a ∧ a < 2 * Real.pi) :
    l.map (wrap (2 * Real.pi)) = l := by
  induction l with
  | nil => simp
  | cons a t ih =>
    have ha := h a (List.mem_cons_self a t)
    simp only [List.map_cons]
    rw [wrap_eq_self two_pi_pos ha.1 ha.2,
      ih (fun b hb => h b (List.mem_cons_of_mem a hb))]

theorem getD_map_real (f : ℝ → ℝ) (l : List ℝ) (k : ℕ) (hk : k < l.length) :
    (l.map f).getD k 0 = f (l.getD k 0) := by
  rw [List.getD_eq_getElem _ _ (by simpa using hk),
    List.getD_eq_getElem _ _ hk, List.getElem_map]

theorem toXYZ_length (us vs : List ℝ) :
    (toXYZ us vs).x.length = min us.length vs.length ∧
    (toXYZ us vs).y.length = min us.length vs.length ∧
    (toXYZ us vs).z.length = min us.length vs.length := by
  simp [toXYZ]

theorem toXYZ_getD (us vs : List ℝ) (k : ℕ) (hu : k < us.length)
    (hv : k < vs.length) :
    (toXYZ us vs).x.getD k 0 =
      (torus_uv_to_xyz (us.getD k 0) (vs.getD k 0) torusR torusr).1 ∧
    (toXYZ us vs).y.getD k 0 =
      (torus_uv_to_xyz (us.getD k 0) (vs.getD k 0) torusR torusr).2.1 ∧
    (toXYZ us vs).z.getD k 0 =
      (torus_uv_to_xyz (us.getD k 0) (vs.getD k 0) torusR torusr).2.2 := by
  have hz : k < (us.zip vs).length := by
    simp only [List.length_zip]
    omega
  refine ⟨?_, ?_, ?_⟩ <;>
    · simp only [toXYZ]
      rw [List.getD_eq_getElem _ _ (by simpa using hz),
        List.getD_eq_getElem _ _ hu, List.getD_eq_getElem _ _ hv]
      simp [List.getElem_map, List.getElem_zip]

/-- C10: `healthy_population_band` only offsets the minor-angle coordinate:
both returned band paths have as many points as the input path, and the
`k`-th point of the upper (resp. lower) band is the surface image of the
input's `u_k` UNCHANGED paired with `v_k + band_width` (resp.
`v_k − band_width`) wrapped modulo `2π`. -/
theorem band_offsets_only_v (p : Path3) (bw : ℝ)
    (hlen : p.u.length = p.v.length) :
    ((healthy_population_band p bw).upper.x.length = p.u.length ∧
     (healthy_population_band p bw).upper.y.length = p.u.length ∧
     (healthy_population_band p bw).upper.z.length = p.u.length ∧
     (healthy_population_band p bw).lower.x.length = p.u.length ∧
     (healthy_population_band p bw).lower.y.length = p.u.length ∧
     (healthy_population_band p bw).lower.z.length = p.u.length) ∧
    ∀ k, k < p.u.length →
      (healthy_population_band p bw).upper.x.getD k 0 =
        (torus_uv_to_xyz (p.u.getD k 0)
          (wrap (2 * Real.pi) (p.v.getD k 0 + bw)) torusR torusr).1 ∧
      (healthy_population_band p bw).upper.y.getD k 0 =
        (torus_uv_to_xyz (p.u.getD k 0)
          (wrap (2 * Real.pi) (p.v.getD k 0 + bw)) torusR torusr).2.1 ∧
      (healthy_population_band p bw).upper.z.getD k 0 =
        (torus_uv_to_xyz (p.u.getD k 0)
          (wrap (2 * Real.pi) (p.v.getD k 0 + bw)) torusR torusr).2.2 ∧
      (healthy_population_band p bw).lower.x.getD k 0 =
        (torus_uv_to_xyz (p.u.getD k 0)
          (wrap (2 * Real.pi) (p.v.getD k 0 - bw)) torusR torusr).1 ∧
      (healthy_population_band p bw).lower.y.getD k 0 =
        (torus_uv_to_xyz (p.u.getD k 0)
          (wrap (2 * Real.pi) (p.v.getD k 0 - bw)) torusR torusr).2.1 ∧
      (healthy_population_band p bw).lower.z.getD k 0 =
        (torus_uv_to_xyz (p.u.getD k 0)
          (wrap (2 * Real.pi) (p.v.getD k 0 - bw)) torusR torusr).2.2 := by
  have hmapu : (p.v.map (fun t => wrap (2 * Real.pi) (t + bw))).length =
      p.v.length := by simp
  have hmapl : (p.v.map (fun t => wrap (2 * Real.pi) (t - bw))).length =
      p.v.length := by simp
  constructor
  · simp only [healthy_population_band]
    refine ⟨?_, ?_, ?_, ?_, ?_, ?_⟩ <;>
      · first
        | rw [(toXYZ_length _ _).1]
        | rw [(toXYZ_length _ _).2.1]
        | rw [(toXYZ_length _ _).2.2]
        simp only [hmapu, hmapl]
        omega
  · intro k hk
    have hku : k < (p.v.map (fun t => wrap (2 * Real.pi) (t + bw))).length := by
      rw [hmapu]; omega
    have hkl : k < (p.v.map (fun t => wrap (2 * Real.pi) (t - bw))).length := by
      rw [hmapl]; omega
    have hkv : k < p.v.length := by omega
    have hU := toXYZ_getD p.u (p.v.map (fun t => wrap (2 * Real.pi) (t + bw)))
      k hk hku
    have hL := toXYZ_getD p.u (p.v.map (fun t => wrap (2 * Real.pi) (t - bw)))
      k hk hkl
    rw [getD_map_real _ _ _ hkv] at hU
    rw [getD_map_real _ _ _ hkv] at hL
    exact ⟨hU.1, hU.2.1, hU.2.2, hL.1, hL.2.1, hL.2.2⟩

/-- C10, witness: the band of a concrete two-point path. -/
theorem band_offsets_only_v_witness :
    (([1, 2] : List ℝ).length = ([1, 2] : List ℝ).length) ∧
    ((healthy_population_band ⟨[1, 2], [1, 2], [], [], [], 2⟩ 0.15).upper.x.length
        = ([1, 2] : List ℝ).length ∧
      (healthy_population_band ⟨[1, 2], [1, 2], [], [], [], 2⟩ 0.15).upper.x.getD 0 0 =
        (torus_uv_to_xyz (([1, 2] : List ℝ).getD 0 0)
          (wrap (2 * Real.pi) (([1, 2] : List ℝ).getD 0 0 + 0.15))
          torusR torusr).1) := by
  have h := band_offsets_only_v ⟨[1, 2], [1, 2], [], [], [], 2⟩ 0.15 rfl
  exact ⟨rfl, h.1.1, (h.2 0 (by norm_num)).1⟩

/-- C4: Blend Operator endpoint behaviour.  With equal-length paths whose
parameter entries lie in `[0, 2π)`: `alpha = 0` is exact passthrough of
`pathA`'s parameter arrays and `alpha = 1` returns `pathB`'s.  With unequal
lengths and a resampler that hits the target length, `alpha = 1` returns
`pathB`'s arrays resampled onto `pathA`'s normalized time grid (wrapped
modulo `2π`, as the code wraps every blended array). -/
theorem blend_endpoints (resample : List ℝ → ℕ → List ℝ)
    (pathA pathB : Path3) :
    (pathA.u.length = pathB.u.length → pathA.v.length = pathB.v.length →
      (∀ a ∈ pathA.u, 0 ≤ a ∧ a < 2 * Real.pi) →
      (∀ a ∈ pathA.v, 0 ≤ a ∧ a < 2 * Real.pi) →
      (blend_toward_healthy resample pathA pathB 0).u = pathA.u ∧
      (blend_toward_healthy resample pathA pathB 0).v = pathA.v) ∧
    (pathA.u.length = pathB.u.length → pathA.v.length = pathB.v.length →
      (∀ a ∈ pathB.u, 0 ≤ a ∧ a < 2 * Real.pi) →
      (∀ a ∈ pathB.v, 0 ≤ a ∧ a < 2 * Real.pi) →
      (blend_toward_healthy resample pathA pathB 1).u = pathB.u ∧
      (blend_toward_healthy resample pathA pathB 1).v = pathB.v) ∧
    (pathA.u.length ≠ pathB.u.length →
      (resample pathB.u pathA.u.length).length = pathA.u.length →
      (resample pathB.v pathA.u.length).length = pathA.v.length →
      (blend_toward_healthy resample pathA pathB 1).u =
        (resample pathB.u pathA.u.length).map (wrap (2 * Real.pi)) ∧
      (blend_toward_healthy resample pathA pathB 1).v =
        (resample pathB.v pathA.u.length).map (wrap (2 * Real.pi))) := by
  refine ⟨?_, ?_, ?_⟩
  · intro hlu hlv hru hrv
    have hcond : ¬pathA.u.length ≠ pathB.u.length := not_not_intro hlu
    constructor
    · simp only [blend_toward_healthy, if_neg hcond]
      rw [zipWith_blend_zero _ _ hlu, map_wrap_eq_self _ hru]
    · simp only [blend_toward_healthy, if_neg hcond]
      rw [zipWith_blend_zero _ _ hlv, map_wrap_eq_self _ hrv]
  · intro hlu hlv hru hrv
    have hcond : ¬pathA.u.length ≠ pathB.u.length := not_not_intro hlu
    constructor
    · simp only [blend_toward_healthy, if_neg hcond]
      rw [zipWith_blend_one _ _ hlu, map_wrap_eq_self _ hru]
    · simp only [blend_toward_healthy, if_neg hcond]
      rw [zipWith_blend_one _ _ hlv, map_wrap_eq_self _ hrv]
  · intro hne hr1 hr2
    constructor
    · simp only [blend_toward_healthy, if_pos hne]
      rw [zipWith_blend_one _ _ hr1.symm]
    · simp only [blend_toward_healthy, if_pos hne]
      rw [zipWith_blend_one _ _ hr2.symm]

/-- C4, witness: two concrete equal-length paths with in-range entries,
with the identity resampler; `alpha = 0` returns pathA's arrays and
`alpha = 1` returns pathB's. -/
theorem blend_endpoints_witness :
    (([1, 2] : List ℝ).length = ([2, 3] : List ℝ).length ∧
      (∀ a ∈ ([1, 2] : List ℝ), 0 ≤ a ∧ a < 2 * Real.pi) ∧
      (∀ a ∈ ([2, 3] : List ℝ), 0 ≤ a ∧ a < 2 * Real.pi)) ∧
    ((blend_toward_healthy (fun l _ => l) ⟨[1, 2], [1, 2], [], [], [], 2⟩
        ⟨[2, 3], [2, 3], [], [], [], 2⟩ 0).u = [1, 2] ∧
     (blend_toward_healthy (fun l _ => l) ⟨[1, 2], [1, 2], [], [], [], 2⟩
        ⟨[2, 3], [2, 3], [], [], [], 2⟩ 0).v = [1, 2]) ∧
    ((blend_toward_healthy (fun l _ => l) ⟨[1, 2], [1, 2], [], [], [], 2⟩
        ⟨[2, 3], [2, 3], [], [], [], 2⟩ 1).u = [2, 3] ∧
     (blend_toward_healthy (fun l _ => l) ⟨[1, 2], [1, 2], [], [], [], 2⟩
        ⟨[2, 3], [2, 3], [], [], [], 2⟩ 1).v = [2, 3]) := by
  have h12 : ∀ a ∈ ([1, 2] : List ℝ), 0 ≤ a ∧ a < 2 * Real.pi := by
    intro a ha
    have hpi := Real.pi_gt_three
    simp only [List.mem_cons, List.not_mem_nil, or_false] at ha
    rcases ha with rfl | rfl <;> constructor <;> nlinarith
  have h23 : ∀ a ∈ ([2, 3] : List ℝ), 0 ≤ a ∧ a < 2 * Real.pi := by
    intro a ha
    have hpi := Real.pi_gt_three
    simp only [List.mem_cons, List.not_mem_nil, or_false] at ha
    rcases ha with rfl | rfl <;> constructor <;> nlinarith
  exact ⟨⟨rfl, h12, h23⟩,
    (blend_endpoints (fun l _ => l) ⟨[1, 2], [1, 2], [], [], [], 2⟩
      ⟨[2, 3], [2, 3], [], [], [], 2⟩).1 rfl rfl h12 h12,
    (blend_endpoints (fun l _ => l) ⟨[1, 2], [1, 2], [], [], [], 2⟩
      ⟨[2, 3], [2, 3], [], [], [], 2⟩).2.1 rfl rfl h23 h23⟩

/-! ### Metrics Extractor (`hud_metrics_from_xyz`, lines 410-458)

`scipy.ndimage.gaussian_filter1d(·, sigma=3)` is an external smoothing
routine; it is a parameter `smooth : List ℝ → List ℝ`.  The single
`np.random.uniform(0.05, 0.15)` jitter draw is `unif 0.05 0.15 jrand` with
`jrand` the raw `[0,1)` draw. -/

/-- `np.diff`: consecutive differences. -/
def npDiff (l : List ℝ) : List ℝ := List.zipWith (fun a b => b - a) l l.tail

/-- Pointwise Euclidean norms `sqrt(a²+b²+c²)` of three coordinate arrays. -/
def norms3 (a b c : List ℝ) : List ℝ :=
  ((a.zip b).zip c).map (fun p => Real.sqrt (p.1.1 ^ 2 + p.1.2 ^ 2 + p.2 ^ 2))

/-- `np.mean`: sum divided by length. -/
def npMean (l : List ℝ) : ℝ := l.sum / l.length

/-- The HUD metrics record `{velocity, acceleration, uncertainty}`. -/
structure Metrics where
  velocity : ℝ
  acceleration : ℝ
  uncertainty : ℝ

/-- `hud_metrics_from_xyz(x, y, z)`: mean segment length (`×100`, fallback
`0.1` for `N<2`), mean second-difference magnitude (`×1000`, fallback `0.01`
for `N<3`), and mean deviation from the smoothed path (`×50` plus a
`U(0.05,0.15)` jitter, fallback `0.1` for `N<4`). -/
def hud_metrics_from_xyz (smooth : List ℝ → List ℝ) (jrand : ℝ)
    (x y z : List ℝ) : Metrics :=
  let velocity :=
    if 1 < x.length then
      npMean (norms3 (npDiff x) (npDiff y) (npDiff z)) * 100
    else 0.1
  let acceleration :=
    if 2 < x.length then
      npMean (norms3 (npDiff (npDiff x)) (npDiff (npDiff y))
        (npDiff (npDiff z))) * 1000
    else 0.01
  let uncertainty :=
    if 3 < x.length then
      npMean (norms3 (List.zipWith (fun a b => a - b) x (smooth x))
        (List.zipWith (fun a b => a - b) y (smooth y))
        (List.zipWith (fun a b => a - b) z (smooth z))) * 50 +
        unif 0.05 0.15 jrand
    else 0.1
  ⟨velocity, acceleration, uncertainty⟩

theorem norms3_mem_nonneg (a b c : List ℝ) :
    ∀ w ∈ norms3 a b c, 0 ≤ w := by
  intro w hw
  simp only [norms3, List.mem_map] at hw
  obtain ⟨p, _, rfl⟩ := hw
  exact Real.sqrt_nonneg _

theorem npMean_nonneg (l : List ℝ) (h : ∀ w ∈ l, 0 ≤ w) : 0 ≤ npMean l :=
  div_nonneg (List.sum_nonneg h) (Nat.cast_nonneg _)

/-- C7: degenerate short paths are handled by the documented fallback
constants and never by an error (the embedding is a total function): for
matching-length inputs, `N < 2` gives velocity `0.1`, `N < 3` gives
acceleration `0.01`, `N < 4` gives uncertainty `0.1`. -/
theorem metrics_fallbacks (smooth : List ℝ → List ℝ) (jrand : ℝ)
    (x y z : List ℝ) (hxy : x.length = y.length)
    (hyz : y.length = z.length) :
    (x.length < 2 →
      (hud_metrics_from_xyz smooth jrand x y z).velocity = 0.1) ∧
    (x.length < 3 →
      (hud_metrics_from_xyz smooth jrand x y z).acceleration = 0.01) ∧
    (x.length < 4 →
      (hud_metrics_from_xyz smooth jrand x y z).uncertainty = 0.1) := by
  refine ⟨fun h => ?_, fun h => ?_, fun h => ?_⟩ <;>
    · simp only [hud_metrics_from_xyz]
      rw [if_neg (by omega)]

/-- C7, witness: the single-point path `x = y = z = [0]` yields all three
fallback constants. -/
theorem metrics_fallbacks_witness :
    (([0] : List ℝ).length = ([0] : List ℝ).length ∧
      ([0] : List ℝ).length < 2) ∧
    (hud_metrics_from_xyz id 0 [0] [0] [0]).velocity = 0.1 ∧
    (hud_metrics_from_xyz id 0 [0] [0] [0]).acceleration = 0.01 ∧
    (hud_metrics_from_xyz id 0 [0] [0] [0]).uncertainty = 0.1 := by
  have h := metrics_fallbacks id 0 [0] [0] [0] rfl rfl
  exact ⟨⟨rfl, by simp⟩, h.1 (by simp), h.2.1 (by simp), h.2.2 (by simp)⟩

/-- C8: for every input coordinate arrays of matching length (and a jitter
draw in `[0,1)`), all three returned metrics — velocity, acceleration and
uncertainty — are non-negative. -/
theorem metrics_nonneg (smooth : List ℝ → List ℝ) (jrand : ℝ)
    (x y z : List ℝ) (hxy : x.length = y.length)
    (hyz : y.length = z.length) (hj : 0 ≤ jrand) :
    0 ≤ (hud_metrics_from_xyz smooth jrand x y z).velocity ∧
    0 ≤ (hud_metrics_from_xyz smooth jrand x y z).acceleration ∧
    0 ≤ (hud_metrics_from_xyz smooth jrand x y z).uncertainty := by
  refine ⟨?_, ?_, ?_⟩ <;> simp only [hud_metrics_from_xyz]
  · split
    · exact mul_nonneg (npMean_nonneg _ (norms3_mem_nonneg _ _ _))
        (by norm_num)
    · norm_num
  · split
    · exact mul_nonneg (npMean_nonneg _ (norms3_mem_nonneg _ _ _))
        (by norm_num)
    · norm_num
  · split
    · have hjit : 0 ≤ unif 0.05 0.15 jrand := by
        simp only [unif]
        nlinarith
      exact add_nonneg
        (mul_nonneg (npMean_nonneg _ (norms3_mem_nonneg _ _ _))
          (by norm_num)) hjit
    · norm_num

/-- C8, witness at a concrete two-point path and jitter draw `0`. -/
theorem metrics_nonneg_witness :
    (([0, 1] : List ℝ).length = ([0, 1] : List ℝ).length ∧ (0:ℝ) ≤ 0) ∧
    (0 ≤ (hud_metrics_from_xyz id 0 [0, 1] [0, 1] [0, 1]).velocity ∧
     0 ≤ (hud_metrics_from_xyz id 0 [0, 1] [0, 1] [0, 1]).acceleration ∧
     0 ≤ (hud_metrics_from_xyz id 0 [0, 1] [0, 1] [0, 1]).uncertainty) :=
  ⟨⟨rfl, le_refl 0⟩, metrics_nonneg id 0 [0, 1] [0, 1] [0, 1] rfl rfl (le_refl 0)⟩

end

/-! ### Mesh tessellation (`build_torus_mesh`, lines 33-89)

The triangle index structure is pure natural-number arithmetic and is
embedded computably; positions and normals (which need `cos`/`sin`) are kept
alongside for faithfulness. -/

/-- The two triangles of the `(i, j)` quad (lines 69-79):
`v0 = i*nu + j`, `v1 = i*nu + (j+1)%nu`, `v2 = ((i+1)%nv)*nu + (j+1)%nu`,
`v3 = ((i+1)%nv)*nu + j`; triangles `(v0,v1,v2)` and `(v0,v2,v3)`. -/
def quadTris (nu nv i j : ℕ) : List (ℕ × ℕ × ℕ) :=
  [(i * nu + j, i * nu + (j + 1) % nu, ((i + 1) % nv) * nu + (j + 1) % nu),
   (i * nu + j, ((i + 1) % nv) * nu + (j + 1) % nu, ((i + 1) % nv) * nu + j)]

/-- All triangles of the mesh, quads in row-major order. -/
def meshTriangles (nu nv : ℕ) : List (ℕ × ℕ × ℕ) :=
  (List.range nv).flatMap fun i => (List.range nu).flatMap fun j =>
    quadTris nu nv i j

/-- The flat index list stored in the returned mesh (the per-quad `extend`
of `[v0,v1,v2]` then `[v0,v2,v3]`, i.e. the flattened triangle list). -/
def meshIndices (nu nv : ℕ) : List ℕ :=
  (meshTriangles nu nv).flatMap fun t => [t.1, t.2.1, t.2.2]

/-- Vertex positions: `v` rows outer, `u` columns inner, both sampled on
`linspace(0, 2π, n, endpoint=False)`. -/
noncomputable def meshPositions (nu nv : ℕ) (R r : ℝ) : List (ℝ × ℝ × ℝ) :=
  (List.range nv).flatMap fun i => (List.range nu).map fun j =>
    torus_uv_to_xyz (2 * Real.pi * j / nu) (2 * Real.pi * i / nv) R r

/-- Outward vertex normals `(cos v·cos u, cos v·sin u, sin v)`. -/
noncomputable def meshNormals (nu nv : ℕ) : List (ℝ × ℝ × ℝ) :=
  (List.range nv).flatMap fun i => (List.range nu).map fun j =>
    (Real.cos (2 * Real.pi * i / nv) * Real.cos (2 * Real.pi * j / nu),
     Real.cos (2 * Real.pi * i / nv) * Real.sin (2 * Real.pi * j / nu),
     Real.sin (2 * Real.pi * i / nv))

/-- The mesh dictionary returned by `build_torus_mesh`. -/
structure TorusMesh where
  positions : List (ℝ × ℝ × ℝ)
  normals : List (ℝ × ℝ × ℝ)
  indices : List ℕ
  num_vertices : ℕ
  num_triangles : ℕ

/-- `build_torus_mesh(nu, nv, R, r)`:
`num_triangles = len(indices) // 3`. -/
noncomputable def build_torus_mesh (nu nv : ℕ) (R r : ℝ) : TorusMesh :=
  { positions := meshPositions nu nv R r,
    normals := meshNormals nu nv,
    indices := meshIndices nu nv,
    num_vertices := (meshPositions nu nv R r).length,
    num_triangles := (meshIndices nu nv).length / 3 }

/-- The undirected edge `{a, b}` as an ordered pair. -/
def und (a b : ℕ) : ℕ × ℕ := if a ≤ b then (a, b) else (b, a)

/-- The triangle `t` has `e` among its three undirected edges. -/
def hasEdge (e : ℕ × ℕ) (t : ℕ × ℕ × ℕ) : Prop :=
  e = und t.1 t.2.1 ∨ e = und t.2.1 t.2.2 ∨ e = und t.2.2 t.1

instance (e : ℕ × ℕ) (t : ℕ × ℕ × ℕ) : Decidable (hasEdge e t) := by
  unfold hasEdge
  infer_instance

/-- In how many triangles of the mesh does the undirected edge `e` appear
(the three edges of one triangle are pairwise distinct for `nu, nv ≥ 2`, so
this is both the occurrence count and the triangle count). -/
def edgeCount (nu nv : ℕ) (e : ℕ × ℕ) : ℕ :=
  (meshTriangles nu nv).countP fun t => decide (hasEdge e t)

/-- Horizontal edge of row `i`, columns `j` and `(j+1) % nu`. -/
def edgeH (nu i j : ℕ) : ℕ × ℕ := und (i * nu + j) (i * nu + (j + 1) % nu)

/-- Vertical edge of column `j`, rows `i` and `(i+1) % nv`. -/
def edgeV (nu nv i j : ℕ) : ℕ × ℕ :=
  und (i * nu + j) (((i + 1) % nv) * nu + j)

/-- Diagonal edge of quad `(i, j)`. -/
def edgeD (nu nv i j : ℕ) : ℕ × ℕ :=
  und (i * nu + j) (((i + 1) % nv) * nu + (j + 1) % nu)

theorem und_comm (a b : ℕ) : und a b = und b a := by
  unfold und
  split <;> split <;> simp_all [Prod.ext_iff] <;> omega

theorem und_eq {a b c d : ℕ} (h : und a b = und c d) :
    (a = c ∧ b = d) ∨ (a = d ∧ b = c) := by
  unfold und at h
  split at h <;> split at h <;> simp_all [Prod.ext_iff] <;> omega

theorem encode_inj {nu i i' j j' : ℕ} (hj : j < nu) (hj' : j' < nu)
    (h : i * nu + j = i' * nu + j') : i = i' ∧ j = j' := by
  have hnu : 0 < nu := lt_of_le_of_lt (Nat.zero_le j) hj
  have hj2 : j = j' := by
    have h2 : (i * nu + j) % nu = (i' * nu + j') % nu :=
      congrArg (fun t => t % nu) h
    rwa [add_comm (i * nu) j, add_comm (i' * nu) j',
      Nat.add_mul_mod_self_right, Nat.add_mul_mod_self_right,
      Nat.mod_eq_of_lt hj, Nat.mod_eq_of_lt hj'] at h2
  subst hj2
  have h3 : i * nu = i' * nu := by omega
  exact ⟨Nat.eq_of_mul_eq_mul_right hnu h3, rfl⟩

theorem encode_lt {nu nv r c : ℕ} (hr : r < nv) (hc : c < nu) :
    r * nu + c < nu * nv :=
  calc r * nu + c < r * nu + nu := by omega
    _ = (r + 1) * nu := by ring
    _ ≤ nv * nu := Nat.mul_le_mul_right _ (by omega)
    _ = nu * nv := Nat.mul_comm _ _

theorem succ_mod_ne {n a : ℕ} (ha : a < n) (hn : 2 ≤ n) : (a + 1) % n ≠ a := by
  rcases Nat.lt_or_ge (a + 1) n with h | h
  · rw [Nat.mod_eq_of_lt h]
    omega
  · have h2 : a + 1 = n := by omega
    rw [h2, Nat.mod_self]
    omega

theorem add_two_mod_ne {n a : ℕ} (ha : a < n) (hn : 3 ≤ n) :
    (a + 2) % n ≠ a := by
  rcases Nat.lt_or_ge (a + 2) n with h | h
  · rw [Nat.mod_eq_of_lt h]
    omega
  · have h2 : a + 2 - n < n := by omega
    rw [Nat.mod_eq_sub_mod h, Nat.mod_eq_of_lt h2]
    omega

theorem two_cycle_mod {n a b : ℕ} (hn : 3 ≤ n) (ha : a < n)
    (h1 : a = (b + 1) % n) (h2 : b = (a + 1) % n) : False := by
  subst h2
  rw [Nat.mod_add_mod] at h1
  have h3 : a + 1 + 1 = a + 2 := by omega
  rw [h3] at h1
  exact absurd h1.symm (add_two_mod_ne ha hn)

theorem edgeH_ne_edgeV {nu nv i i' j j' : ℕ} (hnu : 3 ≤ nu) (hnv : 3 ≤ nv)
    (hj : j < nu) (hj' : j' < nu) (hi' : i' < nv) :
    edgeH nu i j ≠ edgeV nu nv i' j' := by
  intro h
  have hj1 : (j + 1) % nu < nu := Nat.mod_lt _ (by omega)
  rcases und_eq h with ⟨h1, h2⟩ | ⟨h1, h2⟩
  · have e1 := (encode_inj hj hj' h1).1
    have e2 := (encode_inj hj1 hj' h2).1
    exact succ_mod_ne hi' (by omega) (by omega)
  · have e1 := (encode_inj hj hj' h1).1
    have e2 := (encode_inj hj1 hj' h2).1
    exact succ_mod_ne hi' (by omega) (by omega)

theorem edgeH_ne_edgeD {nu nv i i' j j' : ℕ} (hnu : 3 ≤ nu) (hnv : 3 ≤ nv)
    (hj : j < nu) (hj' : j' < nu) (hi' : i' < nv) :
    edgeH nu i j ≠ edgeD nu nv i' j' := by
  intro h
  have hj1 : (j + 1) % nu < nu := Nat.mod_lt _ (by omega)
  have hj1' : (j' + 1) % nu < nu := Nat.mod_lt _ (by omega)
  rcases und_eq h with ⟨h1, h2⟩ | ⟨h1, h2⟩
  · have e1 := (encode_inj hj hj' h1).1
    have e2 := (encode_inj hj1 hj1' h2).1
    exact succ_mod_ne hi' (by omega) (by omega)
  · have e1 := (encode_inj hj hj1' h1).1
    have e2 := (encode_inj hj1 hj' h2).1
    exact succ_mod_ne hi' (by omega) (by omega)

theorem edgeV_ne_edgeD {nu nv i i' j j' : ℕ} (hnu : 3 ≤ nu) (hnv : 3 ≤ nv)
    (hj : j < nu) (hj' : j' < nu) :
    edgeV nu nv i j ≠ edgeD nu nv i' j' := by
  intro h
  have hj1' : (j' + 1) % nu < nu := Nat.mod_lt _ (by omega)
  rcases und_eq h with ⟨h1, h2⟩ | ⟨h1, h2⟩
  · have e1 := (encode_inj hj hj' h1).2
    have e2 := (encode_inj hj hj1' h2).2
    exact succ_mod_ne hj' (by omega) (by omega)
  · have e1 := (encode_inj hj hj1' h1).2
    have e2 := (encode_inj hj hj' h2).2
    exact succ_mod_ne hj' (by omega) (by omega)

theorem edgeH_inj {nu nv i i' j j' : ℕ} (hnu : 3 ≤ nu)
    (hj : j < nu) (hj' : j' < nu)
    (h : edgeH nu i j = edgeH nu i' j') : i = i' ∧ j = j' := by
  have hj1 : (j + 1) % nu < nu := Nat.mod_lt _ (by omega)
  have hj1' : (j' + 1) % nu < nu := Nat.mod_lt _ (by omega)
  rcases und_eq h with ⟨h1, h2⟩ | ⟨h1, h2⟩
  · exact encode_inj hj hj' h1
  · obtain ⟨hi1, hc1⟩ := encode_inj hj hj1' h1
    obtain ⟨hi2, hc2⟩ := encode_inj hj1 hj' h2
    exact (two_cycle_mod hnu hj hc1 hc2.symm).elim

theorem edgeV_inj {nu nv i i' j j' : ℕ} (hnu : 3 ≤ nu) (hnv : 3 ≤ nv)
    (hi : i < nv) (hj : j < nu) (hj' : j' < nu)
    (h : edgeV nu nv i j = edgeV nu nv i' j') : i = i' ∧ j = j' := by
  rcases und_eq h with ⟨h1, h2⟩ | ⟨h1, h2⟩
  · exact encode_inj hj hj' h1
  · obtain ⟨hi1, hc1⟩ := encode_inj hj hj' h1
    obtain ⟨hi2, hc2⟩ := encode_inj hj hj' h2
    exact (two_cycle_mod hnv hi hi1 hi2.symm).elim

theorem edgeD_inj {nu nv i i' j j' : ℕ} (hnu : 3 ≤ nu) (hnv : 3 ≤ nv)
    (hi : i < nv) (hj : j < nu) (hj' : j' < nu)
    (h : edgeD nu nv i j = edgeD nu nv i' j') : i = i' ∧ j = j' := by
  have hj1 : (j + 1) % nu < nu := Nat.mod_lt _ (by omega)
  have hj1' : (j' + 1) % nu < nu := Nat.mod_lt _ (by omega)
  rcases und_eq h with ⟨h1, h2⟩ | ⟨h1, h2⟩
  · exact encode_inj hj hj' h1
  · obtain ⟨hi1, hc1⟩ := encode_inj hj hj1' h1
    obtain ⟨hi2, hc2⟩ := encode_inj hj1 hj' h2
    exact (two_cycle_mod hnv hi hi1 hi2.symm).elim

theorem countP_flatMap_range {α : Type} (p : α → Bool) (n : ℕ)
    (f : ℕ → List α) :
    List.countP p ((List.range n).flatMap f) =
      ∑ i ∈ Finset.range n, List.countP p (f i) := by
  induction n with
  | zero => simp
  | succ n ih =>
    rw [List.range_succ, List.flatMap_append, List.countP_append, ih,
      Finset.sum_range_succ]
    simp

theorem edgeCount_eq (nu nv : ℕ) (e : ℕ × ℕ) :
    edgeCount nu nv e = ∑ i ∈ Finset.range nv, ∑ j ∈ Finset.range nu,
      List.countP (fun t => decide (hasEdge e t)) (quadTris nu nv i j) := by
  unfold edgeCount meshTriangles
  rw [countP_flatMap_range]
  exact Finset.sum_congr rfl fun i _ => countP_flatMap_range _ _ _

theorem ite_or3 {α : Type} [DecidableEq α] {e a b c : α}
    (hab : a ≠ b) (hac : a ≠ c) (hbc : b ≠ c) :
    (if e = a ∨ e = b ∨ e = c then (1:ℕ) else 0) =
      (if e = a then 1 else 0) + (if e = b then 1 else 0) +
      (if e = c then 1 else 0) := by
  by_cases h1 : e = a <;> by_cases h2 : e = b <;> by_cases h3 : e = c <;>
    simp_all

theorem quad_countP {nu nv : ℕ} (hnu : 3 ≤ nu) (hnv : 3 ≤ nv) {i j : ℕ}
    (hi : i < nv) (hj : j < nu) (e : ℕ × ℕ) :
    List.countP (fun t => decide (hasEdge e t)) (quadTris nu nv i j) =
      ((if e = edgeH nu i j then 1 else 0) +
       (if e = edgeV nu nv i ((j + 1) % nu) then 1 else 0) +
       (if e = edgeD nu nv i j then 1 else 0)) +
      ((if e = edgeD nu nv i j then 1 else 0) +
       (if e = edgeH nu ((i + 1) % nv) j then 1 else 0) +
       (if e = edgeV nu nv i j then 1 else 0)) := by
  have hj1 : (j + 1) % nu < nu := Nat.mod_lt _ (by omega)
  have hi1 : (i + 1) % nv < nv := Nat.mod_lt _ (by omega)
  have f1 : und (i * nu + (j + 1) % nu) (((i + 1) % nv) * nu + (j + 1) % nu) =
      edgeV nu nv i ((j + 1) % nu) := rfl
  have f2 : und (((i + 1) % nv) * nu + (j + 1) % nu) (i * nu + j) =
      edgeD nu nv i j := und_comm _ _
  have f3 : und (((i + 1) % nv) * nu + (j + 1) % nu) (((i + 1) % nv) * nu + j) =
      edgeH nu ((i + 1) % nv) j := und_comm _ _
  have f4 : und (((i + 1) % nv) * nu + j) (i * nu + j) =
      edgeV nu nv i j := und_comm _ _
  simp only [quadTris, List.countP_cons, List.countP_nil, hasEdge,
    decide_eq_true_eq, f1, f2, f3, f4]
  rw [show und (i * nu + j) (i * nu + (j + 1) % nu) = edgeH nu i j from rfl,
    show und (i * nu + j) (((i + 1) % nv) * nu + (j + 1) % nu) =
      edgeD nu nv i j from rfl]
  rw [ite_or3 (@edgeH_ne_edgeV nu nv i i j ((j + 1) % nu) hnu hnv hj hj1 hi)
      (@edgeH_ne_edgeD nu nv i i j j hnu hnv hj hj hi)
      (@edgeV_ne_edgeD nu nv i i ((j + 1) % nu) j hnu hnv hj1 hj),
    ite_or3 ((@edgeH_ne_edgeD nu nv ((i + 1) % nv) i j j hnu hnv hj hj hi).symm)
      ((@edgeV_ne_edgeD nu nv i i j j hnu hnv hj hj).symm)
      (@edgeH_ne_edgeV nu nv ((i + 1) % nv) i j j hnu hnv hj hj hi)]
  omega

theorem sum_range_rot (n : ℕ) (f : ℕ → ℕ) :
    ∑ j ∈ Finset.range n, f ((j + 1) % n) = ∑ j ∈ Finset.range n, f j := by
  rcases Nat.eq_zero_or_pos n with rfl | hn
  · simp
  · refine Finset.sum_nbij' (fun a => (a + 1) % n) (fun a => (a + (n - 1)) % n)
      ?_ ?_ ?_ ?_ ?_
    · intro a _
      exact Finset.mem_range.mpr (Nat.mod_lt _ hn)
    · intro a _
      exact Finset.mem_range.mpr (Nat.mod_lt _ hn)
    · intro a ha
      have haa := Finset.mem_range.mp ha
      show ((a + 1) % n + (n - 1)) % n = a
      rw [Nat.mod_add_mod]
      have h2 : a + 1 + (n - 1) = a + n := by omega
      rw [h2, Nat.add_mod_right, Nat.mod_eq_of_lt haa]
    · intro a ha
      have haa := Finset.mem_range.mp ha
      show ((a + (n - 1)) % n + 1) % n = a
      rw [Nat.mod_add_mod]
      have h2 : a + (n - 1) + 1 = a + n := by omega
      rw [h2, Nat.add_mod_right, Nat.mod_eq_of_lt haa]
    · intro a _
      rfl

/-- Number of `(i, j)` index pairs at which `e` is the class edge `g i j`. -/
def countClass (nv nu : ℕ) (g : ℕ → ℕ → ℕ × ℕ) (e : ℕ × ℕ) : ℕ :=
  ∑ i ∈ Finset.range nv, ∑ j ∈ Finset.range nu,
    if e = g i j then 1 else 0

theorem countClass_le_one {nv nu : ℕ} {g : ℕ → ℕ → ℕ × ℕ} {e : ℕ × ℕ}
    (hg : ∀ i j i' j', i < nv → j < nu → i' < nv → j' < nu →
      e = g i j → e = g i' j' → i = i' ∧ j = j') :
    countClass nv nu g e ≤ 1 := by
  unfold countClass
  rw [← Finset.sum_product']
  rw [Finset.sum_boole]
  rw [Nat.cast_id]
  refine Finset.card_le_one.mpr ?_
  intro a ha b hb
  rw [Finset.mem_filter, Finset.mem_product] at ha hb
  obtain ⟨⟨ha1, ha2⟩, hae⟩ := ha
  obtain ⟨⟨hb1, hb2⟩, hbe⟩ := hb
  obtain ⟨h1, h2⟩ := hg a.1 a.2 b.1 b.2 (Finset.mem_range.mp ha1)
    (Finset.mem_range.mp ha2) (Finset.mem_range.mp hb1)
    (Finset.mem_range.mp hb2) hae hbe
  exact Prod.ext h1 h2

theorem countClass_exists {nv nu : ℕ} {g : ℕ → ℕ → ℕ × ℕ} {e : ℕ × ℕ}
    (h : countClass nv nu g e ≠ 0) :
    ∃ i j, i < nv ∧ j < nu ∧ e = g i j := by
  obtain ⟨i, hi, hne⟩ := Finset.exists_ne_zero_of_sum_ne_zero h
  obtain ⟨j, hj, hne2⟩ := Finset.exists_ne_zero_of_sum_ne_zero hne
  refine ⟨i, j, Finset.mem_range.mp hi, Finset.mem_range.mp hj, ?_⟩
  by_contra hc
  rw [if_neg hc] at hne2
  exact hne2 rfl

theorem edgeCount_formula {nu nv : ℕ} (hnu : 3 ≤ nu) (hnv : 3 ≤ nv)
    (e : ℕ × ℕ) :
    edgeCount nu nv e = 2 * (countClass nv nu (fun i j => edgeH nu i j) e +
      countClass nv nu (fun i j => edgeV nu nv i j) e +
      countClass nv nu (fun i j => edgeD nu nv i j) e) := by
  rw [edgeCount_eq,
    Finset.sum_congr rfl fun i hi => Finset.sum_congr rfl fun j hj =>
      quad_countP hnu hnv (Finset.mem_range.mp hi) (Finset.mem_range.mp hj) e]
  simp only [Finset.sum_add_distrib]
  have hV : (∑ i ∈ Finset.range nv, ∑ j ∈ Finset.range nu,
        if e = edgeV nu nv i ((j + 1) % nu) then 1 else 0) =
      ∑ i ∈ Finset.range nv, ∑ j ∈ Finset.range nu,
        if e = edgeV nu nv i j then 1 else 0 :=
    Finset.sum_congr rfl fun i _ =>
      sum_range_rot nu fun j => if e = edgeV nu nv i j then 1 else 0
  have hH : (∑ i ∈ Finset.range nv, ∑ j ∈ Finset.range nu,
        if e = edgeH nu ((i + 1) % nv) j then 1 else 0) =
      ∑ i ∈ Finset.range nv, ∑ j ∈ Finset.range nu,
        if e = edgeH nu i j then 1 else 0 :=
    sum_range_rot nv fun i => ∑ j ∈ Finset.range nu,
      if e = edgeH nu i j then 1 else 0
  rw [hV, hH]
  simp only [countClass]
  omega

/-- Closedness: every undirected edge that appears in the triangulation
appears in exactly two triangles. -/
theorem edgeCount_eq_two {nu nv : ℕ} (hnu : 3 ≤ nu) (hnv : 3 ≤ nv)
    {e : ℕ × ℕ} (hpos : 0 < edgeCount nu nv e) : edgeCount nu nv e = 2 := by
  have hform := edgeCount_formula hnu hnv e
  have hH1 : countClass nv nu (fun i j => edgeH nu i j) e ≤ 1 :=
    countClass_le_one fun i j i' j' hi hj hi' hj' h1 h2 =>
      @edgeH_inj nu nv i i' j j' hnu hj hj' (h1.symm.trans h2)
  have hV1 : countClass nv nu (fun i j => edgeV nu nv i j) e ≤ 1 :=
    countClass_le_one fun i j i' j' hi hj hi' hj' h1 h2 =>
      edgeV_inj hnu hnv hi hj hj' (h1.symm.trans h2)
  have hD1 : countClass nv nu (fun i j => edgeD nu nv i j) e ≤ 1 :=
    countClass_le_one fun i j i' j' hi hj hi' hj' h1 h2 =>
      edgeD_inj hnu hnv hi hj hj' (h1.symm.trans h2)
  have hHV : countClass nv nu (fun i j => edgeH nu i j) e = 0 ∨
      countClass nv nu (fun i j => edgeV nu nv i j) e = 0 := by
    by_contra hc
    push_neg at hc
    obtain ⟨i, j, hi, hj, he1⟩ := countClass_exists hc.1
    obtain ⟨i', j', hi', hj', he2⟩ := countClass_exists hc.2
    exact @edgeH_ne_edgeV nu nv i i' j j' hnu hnv hj hj' hi'
      (he1.symm.trans he2)
  have hHD : countClass nv nu (fun i j => edgeH nu i j) e = 0 ∨
      countClass nv nu (fun i j => edgeD nu nv i j) e = 0 := by
    by_contra hc
    push_neg at hc
    obtain ⟨i, j, hi, hj, he1⟩ := countClass_exists hc.1
    obtain ⟨i', j', hi', hj', he2⟩ := countClass_exists hc.2
    exact @edgeH_ne_edgeD nu nv i i' j j' hnu hnv hj hj' hi'
      (he1.symm.trans he2)
  have hVD : countClass nv nu (fun i j => edgeV nu nv i j) e = 0 ∨
      countClass nv nu (fun i j => edgeD nu nv i j) e = 0 := by
    by_contra hc
    push_neg at hc
    obtain ⟨i, j, hi, hj, he1⟩ := countClass_exists hc.1
    obtain ⟨i', j', hi', hj', he2⟩ := countClass_exists hc.2
    exact @edgeV_ne_edgeD nu nv i i' j j' hnu hnv hj hj'
      (he1.symm.trans he2)
  rcases hHV with h | h <;> rcases hHD with h2 | h2 <;>
    rcases hVD with h3 | h3 <;> omega

theorem length_flatMap_const {α β : Type} (l : List α) (f : α → List β)
    (c : ℕ) (h : ∀ t ∈ l, (f t).length = c) :
    (l.flatMap f).length = l.length * c := by
  induction l with
  | nil => simp
  | cons a t ih =>
    rw [List.flatMap_cons, List.length_append, h a (List.mem_cons_self a t),
      ih fun x hx => h x (List.mem_cons_of_mem a hx), List.length_cons]
    ring

theorem meshTriangles_length (nu nv : ℕ) :
    (meshTriangles nu nv).length = 2 * nu * nv := by
  unfold meshTriangles
  rw [length_flatMap_const (List.range nv)
    (fun i => (List.range nu).flatMap fun j => quadTris nu nv i j) (nu * 2)
    fun i _ => by
      simpa using length_flatMap_const (List.range nu)
        (fun j => quadTris nu nv i j) 2 fun j _ => rfl]
  simp only [List.length_range]
  ring

theorem meshIndices_length (nu nv : ℕ) :
    (meshIndices nu nv).length = 3 * (2 * nu * nv) := by
  unfold meshIndices
  rw [length_flatMap_const (meshTriangles nu nv)
    (fun t => [t.1, t.2.1, t.2.2]) 3 fun t _ => rfl, meshTriangles_length]
  ring

theorem meshIndices_lt (nu nv : ℕ) (hnu : 3 ≤ nu) (hnv : 3 ≤ nv) :
    ∀ ix ∈ meshIndices nu nv, ix < nu * nv := by
  intro ix hix
  rw [meshIndices, List.mem_flatMap] at hix
  obtain ⟨t, ht, hmem⟩ := hix
  rw [meshTriangles, List.mem_flatMap] at ht
  obtain ⟨i, hi, ht2⟩ := ht
  rw [List.mem_flatMap] at ht2
  obtain ⟨j, hj, ht3⟩ := ht2
  have hi' : i < nv := List.mem_range.mp hi
  have hj' : j < nu := List.mem_range.mp hj
  have hi1 : (i + 1) % nv < nv := Nat.mod_lt _ (by omega)
  have hj1 : (j + 1) % nu < nu := Nat.mod_lt _ (by omega)
  simp only [quadTris, List.mem_cons, List.not_mem_nil, or_false] at ht3
  rcases ht3 with rfl | rfl <;>
    · simp only [List.mem_cons, List.not_mem_nil, or_false] at hmem
      rcases hmem with rfl | rfl | rfl <;>
        exact encode_lt (by assumption) (by assumption)

/-- C6: for every `nu, nv ≥ 3`, the mesh built by `build_torus_mesh` has
exactly `2·nu·nv` triangles, every stored vertex index is in
`[0, nu·nv)`, and the triangulation is closed: every undirected edge that
appears in a triangle appears in exactly two triangles (no boundary
edges). -/
theorem build_torus_mesh_correct (nu nv : ℕ) (hnu : 3 ≤ nu) (hnv : 3 ≤ nv) :
    (build_torus_mesh nu nv torusR torusr).num_triangles = 2 * nu * nv ∧
    (∀ ix ∈ (build_torus_mesh nu nv torusR torusr).indices, ix < nu * nv) ∧
    (∀ e : ℕ × ℕ, 0 < edgeCount nu nv e → edgeCount nu nv e = 2) := by
  refine ⟨?_, meshIndices_lt nu nv hnu hnv, fun e he => edgeCount_eq_two hnu hnv he⟩
  show (meshIndices nu nv).length / 3 = 2 * nu * nv
  rw [meshIndices_length, Nat.mul_div_cancel_left _ (by norm_num)]

/-- C6, witness at the smallest admissible mesh `nu = nv = 3`, together with
a concrete edge count evaluated by the decision procedure. -/
theorem build_torus_mesh_correct_witness :
    (3 ≤ 3 ∧
      (build_torus_mesh 3 3 torusR torusr).num_triangles = 2 * 3 * 3 ∧
      (∀ ix ∈ (build_torus_mesh 3 3 torusR torusr).indices, ix < 3 * 3) ∧
      (∀ e : ℕ × ℕ, 0 < edgeCount 3 3 e → edgeCount 3 3 e = 2)) ∧
    edgeCount 3 3 (0, 1) = 2 := by
  refine ⟨⟨le_refl 3, build_torus_mesh_correct 3 3 (le_refl 3) (le_refl 3)⟩, ?_⟩
  decide
